import Mathlib

/-!
Verification of the data-preparation core of `manhattan_generator.py`
(version 1.6.0): chromosome encoding, input-row reading and filtering,
dataset sorting, and the per-chromosome axis-layout computation.

The Python source is shallowly embedded: numeric values are modelled as
`Int`/`ℚ` (Python floats are treated as exact rationals; the special
spellings `inf`/`infinity`/`nan` accepted by Python's `float()` denote
non-finite IEEE values that are outside this rational model — the
predicate `pyFloatSpecial` marks them, and theorems about parse failure
explicitly exclude them), fallible code returns `Except`, and the typed
`ProgramError` exception is distinguished from untyped Python exceptions
by the two constructors of `ReadErr`.
-/

/-- Errors escaping the core.  `programError` embeds the source's typed
`ProgramError` exception (lines 134-152); `pythonError` embeds an untyped
Python exception (for example the `ValueError` raised by `max()` on an
empty sequence). -/
inductive ReadErr where
  | programError (msg : String)
  | pythonError (msg : String)
deriving DecidableEq, Repr

/-- Whitespace as stripped by Python's `int()`/`float()` string parsing. -/
def pyIsSpace (c : Char) : Bool :=
  c == ' ' || c == '\t' || c == '\n' || c == '\r' || c == '\x0b' || c == '\x0c'

/-- Strip leading and trailing whitespace (Python `str.strip()` as applied
inside `int()`/`float()`). -/
def pyStrip (l : List Char) : List Char :=
  ((l.dropWhile pyIsSpace).reverse.dropWhile pyIsSpace).reverse

/-- Value of a list of decimal digit characters. -/
def digitsVal (l : List Char) : Nat :=
  l.foldl (fun a c => 10 * a + (c.toNat - 48)) 0

/-- Parse a non-empty all-digit character list. -/
def parseDigits (l : List Char) : Option Nat :=
  if l ≠ [] ∧ l.all Char.isDigit then some (digitsVal l) else none

/-- Python `int(s)` for base-10 string input: optional surrounding
whitespace, an optional single sign directly followed by one or more
ASCII digits, and nothing else. -/
def pyIntList (l : List Char) : Option Int :=
  let t := pyStrip l
  if t.head? = some '+' then (parseDigits t.tail).map Int.ofNat
  else if t.head? = some '-' then (parseDigits t.tail).map (fun n => -(n : Int))
  else (parseDigits t).map Int.ofNat

/-- Python `int(s)` on a string. -/
def pyInt (s : String) : Option Int :=
  pyIntList s.data

/-- Exponent part of a Python float literal: `e`/`E`, optional sign,
one or more digits; scales the mantissa accordingly. -/
def pyFloatExp (mant : ℚ) (r : List Char) : Option ℚ :=
  let p : Bool × List Char :=
    match r with
    | '+' :: t => (false, t)
    | '-' :: t => (true, t)
    | t => (false, t)
  if p.2 ≠ [] ∧ p.2.all Char.isDigit then
    some (if p.1 then mant / 10 ^ digitsVal p.2 else mant * 10 ^ digitsVal p.2)
  else none

/-- Python `float(s)` restricted to finite decimal literals: optional
surrounding whitespace, optional sign, integer digits and/or a decimal
point with fractional digits (at least one digit overall), optional
exponent.  The special spellings `inf`/`infinity`/`nan` (see
`pyFloatSpecial`) denote non-finite values outside this rational model
and are not parsed here. -/
def pyFloatList (l0 : List Char) : Option ℚ :=
  let s := pyStrip l0
  let p : ℚ × List Char :=
    match s with
    | '+' :: r => (1, r)
    | '-' :: r => (-1, r)
    | r => (1, r)
  let ip := p.2.takeWhile Char.isDigit
  let s2 := p.2.dropWhile Char.isDigit
  let q : List Char × List Char :=
    match s2 with
    | '.' :: r => (r.takeWhile Char.isDigit, r.dropWhile Char.isDigit)
    | r => ([], r)
  if ip = [] ∧ q.1 = [] ∧ s2.head? = some '.' then none
  else if ip = [] ∧ s2.head? ≠ some '.' then none
  else
    let mant : ℚ := p.1 * ((digitsVal ip : ℚ) + (digitsVal q.1 : ℚ) / 10 ^ q.1.length)
    match q.2 with
    | [] => some mant
    | 'e' :: r => pyFloatExp mant r
    | 'E' :: r => pyFloatExp mant r
    | _ => none

/-- Python `float(s)` on a string (finite decimal literals). -/
def pyFloat (s : String) : Option ℚ :=
  pyFloatList s.data

/-- The lower-case to upper-case letter table of ASCII. -/
def upperPairs : List (Char × Char) :=
  [('a','A'),('b','B'),('c','C'),('d','D'),('e','E'),('f','F'),('g','G'),
   ('h','H'),('i','I'),('j','J'),('k','K'),('l','L'),('m','M'),('n','N'),
   ('o','O'),('p','P'),('q','Q'),('r','R'),('s','S'),('t','T'),('u','U'),
   ('v','V'),('w','W'),('x','X'),('y','Y'),('z','Z')]

/-- ASCII upper-casing of one character, as performed by Python 2
`str.upper()` on byte strings: lower-case letters are replaced by their
upper-case counterpart, everything else is unchanged. -/
def pyCharUpper (c : Char) : Char :=
  match upperPairs.find? (fun p => p.1 == c) with
  | some p => p.2
  | none => c

/-- Python `s.upper()`. -/
def pyUpper (s : String) : String :=
  ⟨s.data.map pyCharUpper⟩

/-- The special spellings accepted by Python's `float()` that denote
non-finite IEEE values (`inf`, `infinity`, `nan`, case-insensitively,
with optional sign and surrounding whitespace).  These are outside the
rational model used here. -/
def pyFloatSpecial (s : String) : Bool :=
  let t :=
    match pyStrip s.data with
    | '+' :: r => r
    | '-' :: r => r
    | r => r
  let u : List Char := t.map pyCharUpper
  u == "INF".data || u == "INFINITY".data || u == "NAN".data

/-- `encode_chr` (source lines 531-569): upper-case the label, map the
sex/pseudo-autosomal/mitochondrial names to 23-26, otherwise parse the
label as an integer; a failed parse raises `ProgramError` whose message
names the (upper-cased) label. -/
def encode_chr (chromosome : String) : Except ReadErr Int :=
  let c := pyUpper chromosome
  if c = "X" then .ok 23
  else if c = "Y" then .ok 24
  else if c = "XY" then .ok 25
  else if c = "MT" then .ok 26
  else
    match pyInt c with
    | some n => .ok n
    | none => .error (.programError (c ++ ": not a valid chromosome"))

/-- One data line of the input file, already projected through the
header index (source lines 220-240 validate the header and lines
242-284 extract exactly these four columns from each row): the raw text
of the chromosome column, the selected position column (`pos` or `cm`),
the marker-name column, and the selected confidence column (`lod` or
`p_value`). -/
structure Row where
  chrS : String
  posS : String
  nameS : String
  confS : String
deriving DecidableEq, Repr

/-- One parsed marker record, the entries of the `numpy` recarray built
at source lines 290-296 (confidence still on its raw scale, before the
optional p-value transform of lines 299-301). -/
structure RecordQ where
  chr : Int
  pos : ℚ
  name : String
  conf : ℚ
deriving DecidableEq, Repr

/-- Position parsing (source lines 249-263): `int` of the `pos` column
in physical (bp) mode, `float` of the `cm` column in genetic mode. -/
def parsePos (use_physical_positions : Bool) (s : String) : Option ℚ :=
  if use_physical_positions then (pyInt s).map (fun n => (n : ℚ)) else pyFloat s

/-- The per-row loop of `read_input_file` (source lines 220-284, data
rows only): encode the chromosome, skip excluded chromosomes, parse the
position (`ProgramError` on failure), skip `NA`/`NAN` confidences,
parse the confidence (`ProgramError` on failure), collect the record.
An error on any row aborts the whole read. -/
def readRows (inFileName : String) (use_physical_positions : Bool)
    (exclude_chr : List Int) : List Row → Except ReadErr (List RecordQ)
  | [] => .ok []
  | row :: rest =>
    match encode_chr row.chrS with
    | .error e => .error e
    | .ok chromosome =>
      if chromosome ∈ exclude_chr then
        readRows inFileName use_physical_positions exclude_chr rest
      else
        match parsePos use_physical_positions row.posS with
        | none =>
          .error (.programError (row.posS ++ ": invalid position in " ++ inFileName))
        | some position =>
          if pyUpper row.confS = "NA" ∨ pyUpper row.confS = "NAN" then
            readRows inFileName use_physical_positions exclude_chr rest
          else
            match pyFloat row.confS with
            | none =>
              .error (.programError (row.confS ++ ": invalid confidence in " ++ inFileName))
            | some confidence =>
              (readRows inFileName use_physical_positions exclude_chr rest).map
                (fun data => ⟨chromosome, position, row.nameS, confidence⟩ :: data)

/-- Lexicographic comparison of byte strings, as `numpy` compares the
zero-padded fixed-width `name` field (a proper prefix compares below any
extension, matching padding with null bytes). -/
def bytesLt : List Char → List Char → Bool
  | [], [] => false
  | [], _ :: _ => true
  | _ :: _, [] => false
  | a :: as, b :: bs => a < b || (a == b && bytesLt as bs)

/-- The sort key used by `data.sort(order=["chr", "pos"])` at source
line 297: `numpy` compares the named fields `chr` then `pos` first, and
per its documented semantics the fields left unspecified (`name`, then
`conf`, in dtype order) are used to break ties. -/
def recordLE (a b : RecordQ) : Prop :=
  a.chr < b.chr ∨ (a.chr = b.chr ∧
    (a.pos < b.pos ∨ (a.pos = b.pos ∧
      (bytesLt a.name.data b.name.data = true ∨
        (a.name = b.name ∧ a.conf ≤ b.conf)))))

instance : DecidableRel recordLE := fun a b => by
  unfold recordLE; infer_instance

/-- The dataset sort of source line 297 (see `recordLE`; fully equal
records are indistinguishable, so any correct sort realises `numpy`'s
result). -/
def sortRecords (data : List RecordQ) : List RecordQ :=
  List.insertionSort recordLE data

/-- `read_input_file` (source lines 177-297, modulo the p-value
transform of lines 299-301, modelled separately by `finalizeRecords`):
process the data rows, build the recarray — whose dtype computes
`max([len(i[2]) for i in data])`, which raises an untyped `ValueError`
when every row was filtered out — and sort it by `(chr, pos)`. -/
def read_input_file (inFileName : String) (use_physical_positions : Bool)
    (exclude_chr : List Int) (rows : List Row) : Except ReadErr (List RecordQ) :=
  match readRows inFileName use_physical_positions exclude_chr rows with
  | .error e => .error e
  | .ok data =>
    if data.isEmpty then .error (.pythonError "max() arg is an empty sequence")
    else .ok (sortRecords data)

/-- One final marker record: after the optional p-value transform the
confidence column holds `-log10` values, which are real numbers. -/
structure RecordR where
  chr : Int
  pos : ℚ
  name : String
  conf : ℝ

/-- The confidence normalisation of source lines 299-301: in p-value
mode every confidence `c` becomes `-log10 c`; otherwise it is
unchanged. -/
noncomputable def applyPvalues (use_pvalues : Bool) (c : ℚ) : ℝ :=
  if use_pvalues then -Real.logb 10 (c : ℝ) else (c : ℝ)

/-- Element-wise application of `applyPvalues` to the confidence column
only (source line 301 assigns into `data["conf"]`). -/
noncomputable def finalizeRecords (use_pvalues : Bool) (data : List RecordQ) :
    List RecordR :=
  data.map (fun r => ⟨r.chr, r.pos, r.name, applyPvalues use_pvalues r.conf⟩)

/-- `read_input_file` including the p-value transform (the full body of
source lines 177-303). -/
noncomputable def read_input_file_full (inFileName : String)
    (use_physical_positions use_pvalues : Bool) (exclude_chr : List Int)
    (rows : List Row) : Except ReadErr (List RecordR) :=
  (read_input_file inFileName use_physical_positions exclude_chr rows).map
    (finalizeRecords use_pvalues)

/-- `sorted(list(np.unique(...)))` on a chromosome column (source lines
337 and 339): the ascending list of the distinct values. -/
def uniqueSorted (l : List Int) : List Int :=
  List.insertionSort (fun a b => a ≤ b) l.dedup

/-- Source lines 334-347: collect the sorted distinct chromosome list of
each supplied dataset; with both datasets supplied, unequal lists raise
`ProgramError` (the spec's `ChromosomeSetMismatch`).  With neither
dataset supplied the source would crash indexing an empty list
(`checkArgs` rules that case out); it is embedded as an untyped error. -/
def availableChromosomes (twopoint multipoint : Option (List RecordQ)) :
    Except ReadErr (List Int) :=
  match twopoint, multipoint with
  | none, none => .error (.pythonError "list index out of range")
  | some t, none => .ok (uniqueSorted (t.map RecordQ.chr))
  | none, some m => .ok (uniqueSorted (m.map RecordQ.chr))
  | some t, some m =>
    if uniqueSorted (t.map RecordQ.chr) = uniqueSorted (m.map RecordQ.chr) then
      .ok (uniqueSorted (t.map RecordQ.chr))
    else .error (.programError "missing chromsoome in either twopoint or multipoint data")

/-- The default inter-chromosome spacing, `[25.0, 25000000][args.phys_pos_flag]`
(source line 378). -/
def chrSpacing (phys_pos_flag : Bool) : ℚ :=
  if phys_pos_flag then 25000000 else 25

/-- `np.max` over the positions of one dataset restricted to one
chromosome (source lines 409-415); `none` embeds the error `np.max`
raises on an empty selection. -/
def chrMax (data : List RecordQ) (chromosome : Int) : Option ℚ :=
  ((data.filter (fun r => r.chr == chromosome)).map RecordQ.pos).max?

/-- `maxPos = max(...)` over the supplied datasets (source lines
407-416). -/
def chrMaxCombined (twopoint multipoint : Option (List RecordQ))
    (chromosome : Int) : Option ℚ :=
  (((twopoint.map (chrMax · chromosome)).toList ++
    (multipoint.map (chrMax · chromosome)).toList).filterMap id).max?

/-- The per-chromosome layout quantities computed by the plotting loop:
`start_offset` is `startingPos` when the chromosome is reached,
`box_min`/`box_max` are the `xmin`/`xmax` of lines 424-425, and `tick`
is the label position of line 430. -/
structure ChromosomeLayout where
  chromosome : Int
  start_offset : ℚ
  box_min : ℚ
  box_max : ℚ
  tick : ℚ
deriving DecidableEq, Repr

/-- The loop of source lines 400-485 restricted to its layout
computation: for each chromosome, record the box and tick derived from
the running `startingPos`, then advance it by
`maxPos + startingPos + chr_spacing` (line 485). -/
def planLayoutAux (maxPos : Int → ℚ) (spacing : ℚ) (startingPos : ℚ) :
    List Int → List ChromosomeLayout
  | [] => []
  | chromosome :: rest =>
    let xmin := startingPos - spacing / 2
    let xmax := maxPos chromosome + startingPos + spacing / 2
    ⟨chromosome, startingPos, xmin, xmax, (xmin + xmax) / 2⟩ ::
      planLayoutAux maxPos spacing (maxPos chromosome + startingPos + spacing) rest

/-- The Axis Layout Planner: the layout loop started from
`startingPos = 0` (source line 401). -/
def planLayout (chrs : List Int) (maxPos : Int → ℚ) (spacing : ℚ) :
    List ChromosomeLayout :=
  planLayoutAux maxPos spacing 0 chrs

/-- The layout part of `create_manhattan_plot` on loaded datasets:
validate the chromosome sets (lines 334-347), then run the layout loop
(lines 400-485).  A set mismatch aborts before any layout is emitted. -/
def planFromDatasets (twopoint multipoint : Option (List RecordQ))
    (spacing : ℚ) : Except ReadErr (List ChromosomeLayout) :=
  match availableChromosomes twopoint multipoint with
  | .error e => .error e
  | .ok chrs =>
    .ok (planLayout chrs
      (fun c => (chrMaxCombined twopoint multipoint c).getD 0) spacing)

/-- The running cursor of the layout loop after processing a prefix of
chromosomes: the spec's recurrence `cursor := cursor + max_position(chr)
+ spacing` starting from `start`. -/
def cursorAfter (maxPos : Int → ℚ) (spacing : ℚ) (start : ℚ)
    (chrs : List Int) : ℚ :=
  chrs.foldl (fun cur c => maxPos c + cur + spacing) start

/-- The spec's worked example: a two-point file with rows
`chr=1,pos=10,name=rs1,lod=2.5` and `chr=1,pos=20,name=rs2,lod=4.0`. -/
def twoPointExampleRows : List Row :=
  [⟨"1", "10", "rs1", "2.5"⟩, ⟨"1", "20", "rs2", "4.0"⟩]

/-- The dataset the reader produces from `twoPointExampleRows`. -/
def twoPointExampleData : List RecordQ :=
  [⟨1, 10, "rs1", 5/2⟩, ⟨1, 20, "rs2", 4⟩]

instance exceptDecEq {ε α : Type _} [DecidableEq ε] [DecidableEq α] :
    DecidableEq (Except ε α) := fun x y =>
  match x, y with
  | .ok a, .ok b => if h : a = b then .isTrue (by rw [h]) else .isFalse (by simp [h])
  | .error a, .error b => if h : a = b then .isTrue (by rw [h]) else .isFalse (by simp [h])
  | .ok _, .error _ => .isFalse (by simp)
  | .error _, .ok _ => .isFalse (by simp)

theorem bytesLt_irrefl : ∀ l : List Char, bytesLt l l = false
  | [] => rfl
  | a :: as => by simp [bytesLt, bytesLt_irrefl as]

theorem bytesLt_trans : ∀ {as bs cs : List Char}, bytesLt as bs = true →
    bytesLt bs cs = true → bytesLt as cs = true
  | [], _ :: _, _ :: _, _, _ => rfl
  | a :: as, b :: bs, c :: cs, h1, h2 => by
    simp only [bytesLt, Bool.or_eq_true, Bool.and_eq_true, beq_iff_eq,
      decide_eq_true_eq] at h1 h2 ⊢
    rcases h1 with h1 | ⟨rfl, h1⟩
    · rcases h2 with h2 | ⟨rfl, _⟩
      · exact Or.inl (lt_trans h1 h2)
      · exact Or.inl h1
    · rcases h2 with h2 | ⟨rfl, h2⟩
      · exact Or.inl h2
      · exact Or.inr ⟨rfl, bytesLt_trans h1 h2⟩

theorem bytesLt_eq_of_not : ∀ {as bs : List Char}, bytesLt as bs = false →
    bytesLt bs as = false → as = bs
  | [], [], _, _ => rfl
  | [], _ :: _, h1, _ => by simp [bytesLt] at h1
  | _ :: _, [], _, h2 => by simp [bytesLt] at h2
  | a :: as, b :: bs, h1, h2 => by
    simp only [bytesLt, Bool.or_eq_false_iff, Bool.and_eq_false_iff,
      decide_eq_false_iff_not, beq_eq_false_iff_ne, ne_eq] at h1 h2
    have hab : a = b := le_antisymm (not_lt.mp h2.1) (not_lt.mp h1.1)
    subst hab
    rcases h1.2 with h | h1t
    · exact absurd rfl h
    rcases h2.2 with h | h2t
    · exact absurd rfl h
    exact congrArg (a :: ·) (bytesLt_eq_of_not h1t h2t)

theorem bytesLt_asymm {as bs : List Char} (h : bytesLt as bs = true) :
    bytesLt bs as = false := by
  by_contra hc
  have h2 : bytesLt bs as = true := by simpa using hc
  have h3 := bytesLt_trans h h2
  rw [bytesLt_irrefl] at h3
  exact absurd h3 (by decide)

instance : IsTrans RecordQ recordLE := by
  constructor
  intro a b c hab hbc
  unfold recordLE at hab hbc ⊢
  rcases hab with h1 | ⟨e1, hab⟩
  · rcases hbc with h2 | ⟨e2, _⟩
    · exact Or.inl (lt_trans h1 h2)
    · exact Or.inl (e2 ▸ h1)
  rcases hbc with h2 | ⟨e2, hbc⟩
  · exact Or.inl (e1 ▸ h2)
  refine Or.inr ⟨e1.trans e2, ?_⟩
  rcases hab with h1 | ⟨f1, hab⟩
  · rcases hbc with h2 | ⟨f2, _⟩
    · exact Or.inl (lt_trans h1 h2)
    · exact Or.inl (f2 ▸ h1)
  rcases hbc with h2 | ⟨f2, hbc⟩
  · exact Or.inl (f1 ▸ h2)
  refine Or.inr ⟨f1.trans f2, ?_⟩
  rcases hab with h1 | ⟨g1, hab⟩
  · rcases hbc with h2 | ⟨g2, _⟩
    · exact Or.inl (bytesLt_trans h1 h2)
    · exact Or.inl (g2 ▸ h1)
  rcases hbc with h2 | ⟨g2, hbc⟩
  · exact Or.inl (g1 ▸ h2)
  exact Or.inr ⟨g1.trans g2, le_trans hab hbc⟩

instance : IsTotal RecordQ recordLE := by
  constructor
  intro a b
  unfold recordLE
  rcases lt_trichotomy a.chr b.chr with h | h | h
  · exact Or.inl (Or.inl h)
  · rcases lt_trichotomy a.pos b.pos with h2 | h2 | h2
    · exact Or.inl (Or.inr ⟨h, Or.inl h2⟩)
    · rcases hb : bytesLt a.name.data b.name.data with _ | _
      · rcases hb2 : bytesLt b.name.data a.name.data with _ | _
        · have hn : a.name = b.name :=
            String.ext (bytesLt_eq_of_not hb hb2)
          rcases le_total a.conf b.conf with h3 | h3
          · exact Or.inl (Or.inr ⟨h, Or.inr ⟨h2, Or.inr ⟨hn, h3⟩⟩⟩)
          · exact Or.inr (Or.inr ⟨h.symm, Or.inr ⟨h2.symm, Or.inr ⟨hn.symm, h3⟩⟩⟩)
        · exact Or.inr (Or.inr ⟨h.symm, Or.inr ⟨h2.symm, Or.inl rfl⟩⟩)
      · exact Or.inl (Or.inr ⟨h, Or.inr ⟨h2, Or.inl rfl⟩⟩)
    · exact Or.inr (Or.inr ⟨h.symm, Or.inl h2⟩)
  · exact Or.inr (Or.inl h)

instance : IsAntisymm RecordQ recordLE := by
  constructor
  intro a b hab hba
  unfold recordLE at hab hba
  rcases hab with h1 | ⟨e1, hab⟩
  · rcases hba with h2 | ⟨e2, _⟩
    · exact absurd (lt_trans h1 h2) (lt_irrefl _)
    · exact absurd (e2 ▸ h1) (lt_irrefl _)
  rcases hba with h2 | ⟨e2, hba⟩
  · exact absurd (e1 ▸ h2) (lt_irrefl _)
  rcases hab with h1 | ⟨f1, hab⟩
  · rcases hba with h2 | ⟨f2, _⟩
    · exact absurd (lt_trans h1 h2) (lt_irrefl _)
    · exact absurd (f2 ▸ h1) (lt_irrefl _)
  rcases hba with h2 | ⟨f2, hba⟩
  · exact absurd (f1 ▸ h2) (lt_irrefl _)
  rcases hab with h1 | ⟨g1, hab⟩
  · rcases hba with h2 | ⟨g2, _⟩
    · rw [bytesLt_asymm h1] at h2
      exact absurd h2 (by simp)
    · rw [g2, bytesLt_irrefl] at h1
      exact absurd h1 (by simp)
  rcases hba with h2 | ⟨g2, hba⟩
  · rw [g1, bytesLt_irrefl] at h2
    exact absurd h2 (by simp)
  have hc : a.conf = b.conf := le_antisymm hab hba
  obtain ⟨ac, ap, an, aconf⟩ := a
  obtain ⟨bc, bp, bn, bconf⟩ := b
  simp_all

theorem planLayoutAux_length (maxPos : Int → ℚ) (spacing : ℚ) :
    ∀ (chrs : List Int) (cur : ℚ),
      (planLayoutAux maxPos spacing cur chrs).length = chrs.length
  | [], _ => rfl
  | _ :: rest, cur => by
    simp [planLayoutAux, planLayoutAux_length maxPos spacing rest]

theorem planLayoutAux_getElem? (maxPos : Int → ℚ) (spacing : ℚ) :
    ∀ (chrs : List Int) (cur : ℚ) (i : Nat) (c : Int), chrs[i]? = some c →
      (planLayoutAux maxPos spacing cur chrs)[i]? =
        some ⟨c, cursorAfter maxPos spacing cur (chrs.take i),
          cursorAfter maxPos spacing cur (chrs.take i) - spacing / 2,
          maxPos c + cursorAfter maxPos spacing cur (chrs.take i) + spacing / 2,
          (cursorAfter maxPos spacing cur (chrs.take i) - spacing / 2 +
            (maxPos c + cursorAfter maxPos spacing cur (chrs.take i) + spacing / 2)) / 2⟩
  | [], _, i, c => by simp
  | c0 :: rest, cur, 0, c => by
    intro h
    simp only [List.getElem?_cons_zero, Option.some.injEq] at h
    subst h
    simp [planLayoutAux, cursorAfter]
  | c0 :: rest, cur, i + 1, c => by
    intro h
    simp only [List.getElem?_cons_succ] at h
    have := planLayoutAux_getElem? maxPos spacing rest
      (maxPos c0 + cur + spacing) i c h
    simpa [planLayoutAux, cursorAfter] using this

theorem cursorAfter_take_succ (maxPos : Int → ℚ) (spacing : ℚ)
    (chrs : List Int) (i : Nat) (c : Int) (h : chrs[i]? = some c) :
    cursorAfter maxPos spacing 0 (chrs.take (i + 1)) =
      maxPos c + cursorAfter maxPos spacing 0 (chrs.take i) + spacing := by
  rw [List.take_succ, h]
  simp [cursorAfter, List.foldl_append]

theorem mem_uniqueSorted {x : Int} {l : List Int} :
    x ∈ uniqueSorted l ↔ x ∈ l := by
  simp [uniqueSorted]

theorem uniqueSorted_nodup (l : List Int) : (uniqueSorted l).Nodup :=
  ((List.perm_insertionSort _ l.dedup).nodup_iff).mpr l.nodup_dedup

theorem uniqueSorted_sorted (l : List Int) :
    (uniqueSorted l).Sorted (fun a b => a ≤ b) :=
  List.sorted_insertionSort _ l.dedup

theorem uniqueSorted_eq_iff {l₁ l₂ : List Int} :
    uniqueSorted l₁ = uniqueSorted l₂ ↔ (∀ x, x ∈ l₁ ↔ x ∈ l₂) := by
  constructor
  · intro h x
    rw [← mem_uniqueSorted, h, mem_uniqueSorted]
  · intro h
    refine List.eq_of_perm_of_sorted ?_ (uniqueSorted_sorted l₁) (uniqueSorted_sorted l₂)
    refine (List.perm_ext_iff_of_nodup (uniqueSorted_nodup l₁) (uniqueSorted_nodup l₂)).mpr ?_
    intro x
    rw [mem_uniqueSorted, mem_uniqueSorted]
    exact h x

theorem readRows_chr_encoded {inFileName : String} {phys : Bool}
    {excl : List Int} :
    ∀ {rows : List Row} {data : List RecordQ},
      readRows inFileName phys excl rows = .ok data →
      ∀ r ∈ data, ∃ row ∈ rows, encode_chr row.chrS = .ok r.chr := by
  intro rows
  induction rows with
  | nil =>
    intro data h r hr
    simp only [readRows, Except.ok.injEq] at h
    subst h
    simp at hr
  | cons row rest ih =>
    intro data h r hr
    simp only [readRows] at h
    split at h
    · exact absurd h (by simp)
    · rename_i c hc
      split at h
      · obtain ⟨row', hrow', henc⟩ := ih h r hr
        exact ⟨row', List.mem_cons_of_mem _ hrow', henc⟩
      · split at h
        · exact absurd h (by simp)
        · split at h
          · obtain ⟨row', hrow', henc⟩ := ih h r hr
            exact ⟨row', List.mem_cons_of_mem _ hrow', henc⟩
          · split at h
            · exact absurd h (by simp)
            · rename_i cf hcf
              rcases hrest : readRows inFileName phys excl rest with e | data'
              · rw [hrest] at h
                exact absurd h (by simp [Except.map])
              · rw [hrest] at h
                simp only [Except.map, Except.ok.injEq] at h
                subst h
                rcases List.mem_cons.mp hr with hr | hr
                · subst hr
                  exact ⟨row, List.mem_cons_self _ _, hc⟩
                · obtain ⟨row', hrow', henc⟩ := ih hrest r hr
                  exact ⟨row', List.mem_cons_of_mem _ hrow', henc⟩

/-- Both columns of `upperPairs` avoid whitespace, digits and signs. -/
def goodPair (p : Char × Char) : Bool :=
  !pyIsSpace p.1 && !pyIsSpace p.2 && !p.1.isDigit && !p.2.isDigit &&
    p.1 != '+' && p.2 != '+' && p.1 != '-' && p.2 != '-'

theorem upperPairs_good : upperPairs.all goodPair = true := by decide

theorem pyCharUpper_found {c : Char} {p : Char × Char}
    (hf : upperPairs.find? (fun q => q.1 == c) = some p) :
    p.1 = c ∧ goodPair p = true := by
  refine ⟨by simpa using List.find?_some hf, ?_⟩
  exact List.all_eq_true.mp upperPairs_good p (List.mem_of_find?_eq_some hf)

theorem pyCharUpper_isSpace (c : Char) :
    pyIsSpace (pyCharUpper c) = pyIsSpace c := by
  unfold pyCharUpper
  rcases hf : upperPairs.find? (fun q => q.1 == c) with _ | p <;> rw [hf]
  obtain ⟨hc, hg⟩ := pyCharUpper_found hf
  simp only [goodPair, Bool.and_eq_true, Bool.not_eq_true'] at hg
  rw [hc] at hg
  rw [hg.1.1.1.1.1.1.2, hg.1.1.1.1.1.1.1]

theorem pyCharUpper_isDigit (c : Char) :
    (pyCharUpper c).isDigit = c.isDigit := by
  unfold pyCharUpper
  rcases hf : upperPairs.find? (fun q => q.1 == c) with _ | p <;> rw [hf]
  obtain ⟨hc, hg⟩ := pyCharUpper_found hf
  simp only [goodPair, Bool.and_eq_true, Bool.not_eq_true'] at hg
  rw [hc] at hg
  rw [hg.1.1.1.1.2, hg.1.1.1.1.1.2]

theorem pyCharUpper_eq_plus (c : Char) : pyCharUpper c = '+' ↔ c = '+' := by
  unfold pyCharUpper
  rcases hf : upperPairs.find? (fun q => q.1 == c) with _ | p <;> rw [hf]
  obtain ⟨hc, hg⟩ := pyCharUpper_found hf
  simp only [goodPair, Bool.and_eq_true, bne_iff_ne, ne_eq] at hg
  rw [hc] at hg
  exact iff_of_false hg.1.1.2 hg.1.1.1.2

theorem pyCharUpper_eq_minus (c : Char) : pyCharUpper c = '-' ↔ c = '-' := by
  unfold pyCharUpper
  rcases hf : upperPairs.find? (fun q => q.1 == c) with _ | p <;> rw [hf]
  obtain ⟨hc, hg⟩ := pyCharUpper_found hf
  simp only [goodPair, Bool.and_eq_true, bne_iff_ne, ne_eq] at hg
  rw [hc] at hg
  exact iff_of_false hg.2 hg.1.2

theorem pyCharUpper_of_isDigit {c : Char} (h : c.isDigit = true) :
    pyCharUpper c = c := by
  unfold pyCharUpper
  rcases hf : upperPairs.find? (fun q => q.1 == c) with _ | p <;> rw [hf]
  obtain ⟨hc, hg⟩ := pyCharUpper_found hf
  simp only [goodPair, Bool.and_eq_true, Bool.not_eq_true'] at hg
  rw [hc] at hg
  exact absurd hg.1.1.1.1.1.2 (by simp [h])

theorem pyStrip_map (l : List Char) :
    pyStrip (l.map pyCharUpper) = (pyStrip l).map pyCharUpper := by
  have hp : (pyIsSpace ∘ pyCharUpper) = pyIsSpace := funext pyCharUpper_isSpace
  unfold pyStrip
  rw [List.dropWhile_map, hp, ← List.map_reverse, List.dropWhile_map, hp,
    ← List.map_reverse]

theorem all_isDigit_map (l : List Char) :
    (l.map pyCharUpper).all Char.isDigit = l.all Char.isDigit := by
  rw [List.all_map]
  congr 1
  funext c
  exact pyCharUpper_isDigit c

theorem parseDigits_map (l : List Char) :
    parseDigits (l.map pyCharUpper) = parseDigits l := by
  unfold parseDigits
  by_cases h : l ≠ [] ∧ l.all Char.isDigit
  · have hmap : l.map pyCharUpper = l :=
      (List.map_congr_left (fun c hc =>
        pyCharUpper_of_isDigit (List.all_eq_true.mp h.2 c hc))).trans
        (List.map_id' l)
    rw [hmap]
  · have h1 : ¬(l.map pyCharUpper ≠ [] ∧ (l.map pyCharUpper).all Char.isDigit) := by
      rw [all_isDigit_map]
      simpa using h
    rw [if_neg h1, if_neg h]

theorem pyIntList_map (l : List Char) :
    pyIntList (l.map pyCharUpper) = pyIntList l := by
  unfold pyIntList
  rw [pyStrip_map]
  rcases pyStrip l with _ | ⟨c, rest⟩
  · rfl
  · simp only [List.map_cons, List.head?_cons, List.tail_cons,
      Option.some.injEq, pyCharUpper_eq_plus, pyCharUpper_eq_minus,
      parseDigits_map]
    rw [show (pyCharUpper c :: List.map pyCharUpper rest : List Char) =
      List.map pyCharUpper (c :: rest) from rfl, parseDigits_map]

/-- Upper-casing a label does not change its integer parse: digits,
signs and whitespace are fixed points of `pyCharUpper`, and letters fail
to parse either way. -/
theorem pyInt_pyUpper (s : String) : pyInt (pyUpper s) = pyInt s :=
  pyIntList_map s.data

/-- C4: `encode_chr` maps, case-insensitively, `X` to 23, `Y` to 24,
`XY` to 25 and `MT` to 26; otherwise it returns the integer parse of the
label, accepting any integer verbatim (including values greater than 26
or at most 0); for every non-numeric unrecognized label it fails with
the `ProgramError` naming the (upper-cased) offending label. -/
theorem C4_encode_spec (s : String) :
    (pyUpper s = "X" → encode_chr s = .ok 23) ∧
    (pyUpper s = "Y" → encode_chr s = .ok 24) ∧
    (pyUpper s = "XY" → encode_chr s = .ok 25) ∧
    (pyUpper s = "MT" → encode_chr s = .ok 26) ∧
    (pyUpper s ≠ "X" → pyUpper s ≠ "Y" → pyUpper s ≠ "XY" → pyUpper s ≠ "MT" →
      (∀ n : Int, pyInt s = some n → encode_chr s = .ok n) ∧
      (pyInt s = none →
        encode_chr s =
          .error (.programError (pyUpper s ++ ": not a valid chromosome")))) := by
  refine ⟨fun h => ?_, fun h => ?_, fun h => ?_, fun h => ?_,
    fun h1 h2 h3 h4 => ⟨fun n hn => ?_, fun hn => ?_⟩⟩
  · simp only [encode_chr]
    rw [h]
    decide
  · simp only [encode_chr]
    rw [h]
    decide
  · simp only [encode_chr]
    rw [h]
    decide
  · simp only [encode_chr]
    rw [h]
    decide
  · simp only [encode_chr]
    rw [if_neg h1, if_neg h2, if_neg h3, if_neg h4, pyInt_pyUpper, hn]
  · simp only [encode_chr]
    rw [if_neg h1, if_neg h2, if_neg h3, if_neg h4, pyInt_pyUpper, hn]

theorem C4_witness :
    encode_chr "x" = .ok 23 ∧ encode_chr "Y" = .ok 24 ∧
    encode_chr "xY" = .ok 25 ∧ encode_chr "mt" = .ok 26 ∧
    encode_chr "7" = .ok 7 ∧ encode_chr "0" = .ok 0 ∧
    encode_chr "-3" = .ok (-3) ∧ encode_chr "27" = .ok 27 ∧
    encode_chr "foo" = .error (.programError "FOO: not a valid chromosome") := by
  refine ⟨(C4_encode_spec "x").1 (by decide),
    (C4_encode_spec "Y").2.1 (by decide),
    (C4_encode_spec "xY").2.2.1 (by decide),
    (C4_encode_spec "mt").2.2.2.1 (by decide),
    ((C4_encode_spec "7").2.2.2.2 (by decide) (by decide) (by decide)
      (by decide)).1 7 (by decide),
    ((C4_encode_spec "0").2.2.2.2 (by decide) (by decide) (by decide)
      (by decide)).1 0 (by decide),
    ((C4_encode_spec "-3").2.2.2.2 (by decide) (by decide) (by decide)
      (by decide)).1 (-3) (by decide),
    ((C4_encode_spec "27").2.2.2.2 (by decide) (by decide) (by decide)
      (by decide)).1 27 (by decide), ?_⟩
  have h := ((C4_encode_spec "foo").2.2.2.2 (by decide) (by decide) (by decide)
    (by decide)).2 (by decide)
  rw [show pyUpper "foo" ++ ": not a valid chromosome" =
    "FOO: not a valid chromosome" from by decide] at h
  exact h

unseal Rat.mul Rat.add Rat.sub Rat.inv

/-- C1: for every chromosome sequence with per-chromosome max positions
and a spacing constant, the Axis Layout Planner computes, starting from
cursor 0 and iterating in order: `start_offset = cursor`,
`box_min = cursor - spacing/2`, `box_max = cursor + max_position(chr) +
spacing/2`, tick at the midpoint of the box, and advances the cursor by
`max_position(chr) + spacing`; in particular, for the single-chromosome
two-point dataset with positions 10 and 20, the first chromosome's
`start_offset` is 0 and its `box_max` equals `20 + spacing/2`. -/
theorem C1_layout_spec :
    (∀ (chrs : List Int) (maxPos : Int → ℚ) (spacing : ℚ) (i : Nat) (c : Int),
      chrs[i]? = some c →
      (planLayout chrs maxPos spacing)[i]? = some
        ⟨c, cursorAfter maxPos spacing 0 (chrs.take i),
          cursorAfter maxPos spacing 0 (chrs.take i) - spacing / 2,
          cursorAfter maxPos spacing 0 (chrs.take i) + maxPos c + spacing / 2,
          (cursorAfter maxPos spacing 0 (chrs.take i) - spacing / 2 +
            (cursorAfter maxPos spacing 0 (chrs.take i) + maxPos c +
              spacing / 2)) / 2⟩ ∧
      cursorAfter maxPos spacing 0 (chrs.take (i + 1)) =
        cursorAfter maxPos spacing 0 (chrs.take i) + maxPos c + spacing) ∧
    (∀ spacing : ℚ,
      read_input_file "twopoint.txt" true [] twoPointExampleRows =
        .ok twoPointExampleData ∧
      chrMax twoPointExampleData 1 = some 20 ∧
      availableChromosomes (some twoPointExampleData) none = .ok [1] ∧
      (∀ (L : ChromosomeLayout) (rest : List ChromosomeLayout),
        planFromDatasets (some twoPointExampleData) none spacing =
          .ok (L :: rest) →
        L.start_offset = 0 ∧ L.box_max = 20 + spacing / 2 ∧ rest = [])) := by
  constructor
  · intro chrs maxPos spacing i c h
    have hg := planLayoutAux_getElem? maxPos spacing chrs 0 i c h
    constructor
    · rw [planLayout, hg]
      simp only [Option.some.injEq, ChromosomeLayout.mk.injEq]
      exact ⟨trivial, trivial, trivial, by ring, by ring⟩
    · rw [cursorAfter_take_succ maxPos spacing chrs i c h]
      ring
  · intro spacing
    have huniq : uniqueSorted (twoPointExampleData.map RecordQ.chr) = [1] := by
      decide
    have hmax : chrMaxCombined (some twoPointExampleData) none 1 = some 20 := by
      decide
    have hplan : planFromDatasets (some twoPointExampleData) none spacing =
        .ok [⟨1, 0, 0 - spacing / 2, (20 : ℚ) + 0 + spacing / 2,
          (0 - spacing / 2 + (20 + 0 + spacing / 2)) / 2⟩] := by
      simp only [planFromDatasets, availableChromosomes, huniq, planLayout,
        planLayoutAux, hmax, Option.getD_some]
    refine ⟨by decide, by decide, by decide, ?_⟩
    intro L rest hL
    rw [hplan] at hL
    simp only [Except.ok.injEq, List.cons.injEq] at hL
    obtain ⟨hL1, hL2⟩ := hL
    subst hL1
    exact ⟨rfl, by ring, hL2.symm⟩

theorem C1_witness :
    ((planLayout [1, 2] (fun _ => (5 : ℚ)) 4)[1]? = some
      ⟨2, cursorAfter (fun _ => (5 : ℚ)) 4 0 ([1, 2].take 1),
        cursorAfter (fun _ => (5 : ℚ)) 4 0 ([1, 2].take 1) - 4 / 2,
        cursorAfter (fun _ => (5 : ℚ)) 4 0 ([1, 2].take 1) + 5 + 4 / 2,
        (cursorAfter (fun _ => (5 : ℚ)) 4 0 ([1, 2].take 1) - 4 / 2 +
          (cursorAfter (fun _ => (5 : ℚ)) 4 0 ([1, 2].take 1) + 5 + 4 / 2)) /
            2⟩ ∧
      cursorAfter (fun _ => (5 : ℚ)) 4 0 ([1, 2].take 2) =
        cursorAfter (fun _ => (5 : ℚ)) 4 0 ([1, 2].take 1) + 5 + 4) ∧
    ((⟨1, 0, 0 - 25 / 2, 20 + 0 + 25 / 2, (0 - 25 / 2 + (20 + 0 + 25 / 2)) / 2⟩ :
        ChromosomeLayout).start_offset = 0 ∧
      (⟨1, 0, 0 - 25 / 2, 20 + 0 + 25 / 2, (0 - 25 / 2 + (20 + 0 + 25 / 2)) / 2⟩ :
        ChromosomeLayout).box_max = 20 + 25 / 2 ∧
      ([] : List ChromosomeLayout) = []) :=
  ⟨C1_layout_spec.1 [1, 2] (fun _ => 5) 4 1 2 (by decide),
   (C1_layout_spec.2 25).2.2.2
     ⟨1, 0, 0 - 25 / 2, 20 + 0 + 25 / 2, (0 - 25 / 2 + (20 + 0 + 25 / 2)) / 2⟩
     [] (by decide)⟩

/-- C2: for every chromosome sequence whose per-chromosome max positions
are non-negative and whose spacing is positive, the layout produced by
the Axis Layout Planner is monotonically increasing (each chromosome's
`start_offset` is strictly greater than the previous one's) and adjacent
chromosome boxes do not overlap (`box_max` of chromosome `i` is at most
`box_min` of chromosome `i+1`). -/
theorem C2_layout_monotone (chrs : List Int) (maxPos : Int → ℚ) (spacing : ℚ)
    (hpos : ∀ c ∈ chrs, 0 ≤ maxPos c) (hs : 0 < spacing) :
    ∀ (i : Nat) (a b : ChromosomeLayout),
      (planLayout chrs maxPos spacing)[i]? = some a →
      (planLayout chrs maxPos spacing)[i + 1]? = some b →
      a.start_offset < b.start_offset ∧ a.box_max ≤ b.box_min := by
  intro i a b ha hb
  have hlen := planLayoutAux_length maxPos spacing chrs 0
  have hi : i < chrs.length := by
    have := (List.getElem?_eq_some.mp ha).1
    rwa [planLayout, hlen] at this
  have hi1 : i + 1 < chrs.length := by
    have := (List.getElem?_eq_some.mp hb).1
    rwa [planLayout, hlen] at this
  have hci : chrs[i]? = some (chrs.get ⟨i, hi⟩) := List.getElem?_eq_getElem hi
  have hci1 : chrs[i + 1]? = some (chrs.get ⟨i + 1, hi1⟩) :=
    List.getElem?_eq_getElem hi1
  rw [planLayout, planLayoutAux_getElem? maxPos spacing chrs 0 i _ hci] at ha
  rw [planLayout, planLayoutAux_getElem? maxPos spacing chrs 0 (i + 1) _ hci1] at hb
  have hstep := cursorAfter_take_succ maxPos spacing chrs i _ hci
  have hmp : 0 ≤ maxPos (chrs.get ⟨i, hi⟩) :=
    hpos _ (chrs.get_mem _ _)
  injection ha with ha2
  injection hb with hb2
  subst ha2
  subst hb2
  constructor
  · dsimp only
    rw [hstep]
    linarith
  · dsimp only
    rw [hstep]
    linarith

theorem C2_witness :
    (⟨1, 0, 0 - 2 / 2, 5 + 0 + 2 / 2, (0 - 2 / 2 + (5 + 0 + 2 / 2)) / 2⟩ :
        ChromosomeLayout).start_offset <
      (⟨2, 7, 7 - 2 / 2, 5 + 7 + 2 / 2, (7 - 2 / 2 + (5 + 7 + 2 / 2)) / 2⟩ :
        ChromosomeLayout).start_offset ∧
    (⟨1, 0, 0 - 2 / 2, 5 + 0 + 2 / 2, (0 - 2 / 2 + (5 + 0 + 2 / 2)) / 2⟩ :
        ChromosomeLayout).box_max ≤
      (⟨2, 7, 7 - 2 / 2, 5 + 7 + 2 / 2, (7 - 2 / 2 + (5 + 7 + 2 / 2)) / 2⟩ :
        ChromosomeLayout).box_min :=
  C2_layout_monotone [1, 2] (fun _ => 5) 2 (fun c _ => by norm_num)
    (by norm_num) 0 _ _ (by decide) (by decide)

/-- C3: whenever both a two-point and a multipoint dataset are supplied,
the layout stage fails with the chromosome-set-mismatch `ProgramError`
exactly when the two chromosome sets differ — and it does so before
emitting any layout (`planFromDatasets` returns the bare error); when
the two sets are identical it proceeds, returning the sorted distinct
chromosome list. -/
theorem C3_chromosome_set_mismatch (t m : List RecordQ) :
    (availableChromosomes (some t) (some m) =
        .error (.programError
          "missing chromsoome in either twopoint or multipoint data") ↔
      ¬ (∀ x : Int, x ∈ t.map RecordQ.chr ↔ x ∈ m.map RecordQ.chr)) ∧
    (∀ spacing : ℚ,
      planFromDatasets (some t) (some m) spacing =
          .error (.programError
            "missing chromsoome in either twopoint or multipoint data") ↔
        ¬ (∀ x : Int, x ∈ t.map RecordQ.chr ↔ x ∈ m.map RecordQ.chr)) ∧
    ((∀ x : Int, x ∈ t.map RecordQ.chr ↔ x ∈ m.map RecordQ.chr) →
      availableChromosomes (some t) (some m) =
        .ok (uniqueSorted (t.map RecordQ.chr))) := by
  by_cases h : uniqueSorted (t.map RecordQ.chr) = uniqueSorted (m.map RecordQ.chr)
  · have hmem := uniqueSorted_eq_iff.mp h
    refine ⟨iff_of_false ?_ (fun hn => hn hmem),
      fun spacing => iff_of_false ?_ (fun hn => hn hmem), fun _ => ?_⟩
    · simp [availableChromosomes, h]
    · simp [planFromDatasets, availableChromosomes, h]
    · simp [availableChromosomes, h]
  · have hmem : ¬ (∀ x : Int, x ∈ t.map RecordQ.chr ↔ x ∈ m.map RecordQ.chr) :=
      fun hc => h (uniqueSorted_eq_iff.mpr hc)
    refine ⟨iff_of_true ?_ hmem, fun spacing => iff_of_true ?_ hmem,
      fun hc => absurd hc hmem⟩
    · simp [availableChromosomes, h]
    · simp [planFromDatasets, availableChromosomes, h]

theorem C3_witness :
    availableChromosomes (some [⟨5, 1, "a", 1⟩]) (some [⟨1, 1, "a", 1⟩]) =
      .error (.programError
        "missing chromsoome in either twopoint or multipoint data") ∧
    planFromDatasets (some [⟨5, 1, "a", 1⟩]) (some [⟨1, 1, "a", 1⟩]) 25 =
      .error (.programError
        "missing chromsoome in either twopoint or multipoint data") ∧
    availableChromosomes (some [⟨1, 1, "a", 1⟩]) (some [⟨1, 2, "b", 3⟩]) =
      .ok (uniqueSorted (([⟨1, 1, "a", 1⟩] : List RecordQ).map RecordQ.chr)) :=
  ⟨(C3_chromosome_set_mismatch [⟨5, 1, "a", 1⟩] [⟨1, 1, "a", 1⟩]).1.mpr
      (fun hall => by simpa using (hall 5).mp (by decide)),
   ((C3_chromosome_set_mismatch [⟨5, 1, "a", 1⟩] [⟨1, 1, "a", 1⟩]).2.1 25).mpr
      (fun hall => by simpa using (hall 5).mp (by decide)),
   (C3_chromosome_set_mismatch [⟨1, 1, "a", 1⟩] [⟨1, 2, "b", 3⟩]).2.2
      (fun x => by simp)⟩

/-- C5: for a data row that reaches the confidence field (its chromosome
encodes successfully and is not excluded, and its position parses): if
the confidence text is, case-insensitively, `NA` or `NAN`, the read
skips the row without error, so it is absent from the returned dataset;
if the confidence text is any other text that does not parse as a float
(non-finite special spellings, which are outside the rational model,
excluded), the read fails with the `ProgramError` naming the raw value
and the file, aborting the whole read. -/
theorem C5_confidence_handling (inFileName : String) (phys : Bool)
    (excl : List Int) (row : Row) (rest : List Row) (c : Int) (p : ℚ)
    (hchr : encode_chr row.chrS = .ok c) (hexcl : c ∉ excl)
    (hpos : parsePos phys row.posS = some p) :
    ((pyUpper row.confS = "NA" ∨ pyUpper row.confS = "NAN") →
      readRows inFileName phys excl (row :: rest) =
        readRows inFileName phys excl rest ∧
      read_input_file inFileName phys excl (row :: rest) =
        read_input_file inFileName phys excl rest) ∧
    (pyUpper row.confS ≠ "NA" → pyUpper row.confS ≠ "NAN" →
      pyFloatSpecial row.confS = false → pyFloat row.confS = none →
      readRows inFileName phys excl (row :: rest) =
        .error (.programError
          (row.confS ++ ": invalid confidence in " ++ inFileName)) ∧
      read_input_file inFileName phys excl (row :: rest) =
        .error (.programError
          (row.confS ++ ": invalid confidence in " ++ inFileName))) := by
  constructor
  · intro hna
    have hrr : readRows inFileName phys excl (row :: rest) =
        readRows inFileName phys excl rest := by
      simp [readRows, hchr, hexcl, hpos, hna]
    exact ⟨hrr, by rw [read_input_file, hrr, read_input_file]⟩
  · intro hna1 hna2 _ hconf
    have hrr : readRows inFileName phys excl (row :: rest) =
        .error (.programError
          (row.confS ++ ": invalid confidence in " ++ inFileName)) := by
      simp [readRows, hchr, hexcl, hpos, hna1, hna2, hconf]
    exact ⟨hrr, by rw [read_input_file, hrr]⟩

theorem C5_witness :
    (readRows "f" true [] [⟨"1", "10", "rs1", "NA"⟩, ⟨"1", "11", "rs2", "3.5"⟩] =
      readRows "f" true [] [⟨"1", "11", "rs2", "3.5"⟩] ∧
    read_input_file "f" true []
        [⟨"1", "10", "rs1", "NA"⟩, ⟨"1", "11", "rs2", "3.5"⟩] =
      read_input_file "f" true [] [⟨"1", "11", "rs2", "3.5"⟩]) ∧
    (readRows "f" true [] [⟨"1", "10", "rs1", "xyz"⟩] =
      .error (.programError "xyz: invalid confidence in f") ∧
    read_input_file "f" true [] [⟨"1", "10", "rs1", "xyz"⟩] =
      .error (.programError "xyz: invalid confidence in f")) :=
  ⟨(C5_confidence_handling "f" true [] ⟨"1", "10", "rs1", "NA"⟩
      [⟨"1", "11", "rs2", "3.5"⟩] 1 10 (by decide) (by decide) (by decide)).1
      (by decide),
   (C5_confidence_handling "f" true [] ⟨"1", "10", "rs1", "xyz"⟩ [] 1 10
      (by decide) (by decide) (by decide)).2
      (by decide) (by decide) (by decide) (by decide)⟩

/-- C10: a data row whose encoded chromosome is in the excluded set is
skipped before its position or confidence fields are even examined: the
read of `row :: rest` equals the read of `rest` outright, whatever text
those fields hold, so an excluded row can never cause an
invalid-position or invalid-confidence failure. -/
theorem C10_excluded_rows_skipped (inFileName : String) (phys : Bool)
    (excl : List Int) (row : Row) (rest : List Row) (c : Int)
    (hchr : encode_chr row.chrS = .ok c) (hexcl : c ∈ excl) :
    readRows inFileName phys excl (row :: rest) =
      readRows inFileName phys excl rest ∧
    read_input_file inFileName phys excl (row :: rest) =
      read_input_file inFileName phys excl rest := by
  have hrr : readRows inFileName phys excl (row :: rest) =
      readRows inFileName phys excl rest := by
    simp [readRows, hchr, hexcl]
  exact ⟨hrr, by rw [read_input_file, hrr, read_input_file]⟩

theorem C10_witness :
    readRows "f" true [23]
        [⟨"X", "garbage", "rs1", "alsobad"⟩, ⟨"1", "10", "rs2", "2.5"⟩] =
      readRows "f" true [23] [⟨"1", "10", "rs2", "2.5"⟩] ∧
    read_input_file "f" true [23]
        [⟨"X", "garbage", "rs1", "alsobad"⟩, ⟨"1", "10", "rs2", "2.5"⟩] =
      read_input_file "f" true [23] [⟨"1", "10", "rs2", "2.5"⟩] :=
  C10_excluded_rows_skipped "f" true [23] ⟨"X", "garbage", "rs1", "alsobad"⟩
    [⟨"1", "10", "rs2", "2.5"⟩] 23 (by decide) (by decide)

/-- C6: in p-value mode the full read returns `-log10` of each parsed
confidence, applied element-wise to the confidence column only (all
other fields unchanged); the transform is strictly decreasing on
positive inputs; in LOD mode the confidence values pass through
unchanged. -/
theorem C6_pvalue_transform (inFileName : String) (phys : Bool)
    (excl : List Int) (rows : List Row) (qs : List RecordQ)
    (h : read_input_file inFileName phys excl rows = .ok qs) :
    read_input_file_full inFileName phys true excl rows =
      .ok (qs.map (fun r =>
        ⟨r.chr, r.pos, r.name, -Real.logb 10 (r.conf : ℝ)⟩)) ∧
    read_input_file_full inFileName phys false excl rows =
      .ok (qs.map (fun r => ⟨r.chr, r.pos, r.name, (r.conf : ℝ)⟩)) ∧
    (∀ a b : ℚ, 0 < a → a < b →
      applyPvalues true b < applyPvalues true a) ∧
    (∀ c : ℚ, applyPvalues false c = (c : ℝ)) := by
  refine ⟨?_, ?_, ?_, fun c => rfl⟩
  · rw [read_input_file_full, h]
    simp [Except.map, finalizeRecords, applyPvalues]
  · rw [read_input_file_full, h]
    simp [Except.map, finalizeRecords, applyPvalues]
  · intro a b ha hab
    unfold applyPvalues
    simp only [if_pos]
    refine neg_lt_neg ?_
    refine Real.logb_lt_logb (by norm_num) ?_ ?_
    · exact_mod_cast ha
    · exact_mod_cast hab

theorem C6_witness :
    read_input_file_full "f" true true [] [⟨"1", "10", "rs1", "0.01"⟩] =
      .ok [⟨1, 10, "rs1", -Real.logb 10 ((1 / 100 : ℚ) : ℝ)⟩] ∧
    applyPvalues true 2 < applyPvalues true 1 ∧
    applyPvalues false 5 = ((5 : ℚ) : ℝ) :=
  ⟨by
    have h := (C6_pvalue_transform "f" true [] [⟨"1", "10", "rs1", "0.01"⟩]
      [⟨1, 10, "rs1", 1 / 100⟩] (by decide)).1
    simpa using h,
   (C6_pvalue_transform "f" true [] [⟨"1", "10", "rs1", "0.01"⟩]
      [⟨1, 10, "rs1", 1 / 100⟩] (by decide)).2.2.1 1 2 one_pos one_lt_two,
   (C6_pvalue_transform "f" true [] [⟨"1", "10", "rs1", "0.01"⟩]
      [⟨1, 10, "rs1", 1 / 100⟩] (by decide)).2.2.2 5⟩

/-- C7 (amended): the Dataset Sorter returns a permutation of the input
ordered ascending by the composite key (chromosome, position); ties on
that key are broken by the remaining record fields (name, then
confidence) ascending — `numpy`'s documented behaviour for fields left
out of `order` — not by input position; an input already sorted by the
full key is returned unchanged. -/
theorem C7_sort_order (l : List RecordQ) :
    (sortRecords l).Perm l ∧
    (sortRecords l).Sorted recordLE ∧
    (sortRecords l).Sorted
      (fun a b => a.chr < b.chr ∨ (a.chr = b.chr ∧ a.pos ≤ b.pos)) ∧
    (l.Sorted recordLE → sortRecords l = l) := by
  refine ⟨List.perm_insertionSort recordLE l,
    List.sorted_insertionSort recordLE l, ?_,
    fun hs => hs.insertionSort_eq⟩
  refine (List.sorted_insertionSort recordLE l).imp ?_
  intro a b hab
  unfold recordLE at hab
  rcases hab with h | ⟨he, hrest⟩
  · exact Or.inl h
  · refine Or.inr ⟨he, ?_⟩
    rcases hrest with h2 | ⟨he2, _⟩
    · exact le_of_lt h2
    · exact le_of_eq he2

theorem C7_witness :
    sortRecords [⟨1, 10, "a", 2⟩, ⟨1, 10, "b", 1⟩] =
      [⟨1, 10, "a", 2⟩, ⟨1, 10, "b", 1⟩] :=
  (C7_sort_order [⟨1, 10, "a", 2⟩, ⟨1, 10, "b", 1⟩]).2.2.2 (by decide)

/-- C7 counterexample: two records share the (chromosome, position) key
`(1, 10)` but are swapped by the sort (the tie is broken by the `name`
bytes, not by input order); in particular this input is already sorted
by (chromosome, position) yet sorting does not return it unchanged. -/
theorem C7_counterexample :
    sortRecords [⟨1, 10, "b", 1⟩, ⟨1, 10, "a", 2⟩] =
      [⟨1, 10, "a", 2⟩, ⟨1, 10, "b", 1⟩] ∧
    (⟨1, 10, "b", 1⟩ : RecordQ).chr = (⟨1, 10, "a", 2⟩ : RecordQ).chr ∧
    (⟨1, 10, "b", 1⟩ : RecordQ).pos = (⟨1, 10, "a", 2⟩ : RecordQ).pos ∧
    sortRecords [⟨1, 10, "b", 1⟩, ⟨1, 10, "a", 2⟩] ≠
      [⟨1, 10, "b", 1⟩, ⟨1, 10, "a", 2⟩] := by
  refine ⟨by decide, by decide, by decide, by decide⟩

/-- C8 (amended): every record of a successfully returned dataset
carries the integer the encoder produced for its row's label; whenever
every label that encodes successfully encodes to a positive integer,
every record's chromosome is positive — but the encoder also accepts
`"0"` and negative numeric labels verbatim, so positivity does not hold
unconditionally (see the counterexample). -/
theorem C8_chromosome_positive (inFileName : String) (phys : Bool)
    (excl : List Int) (rows : List Row) (ds : List RecordQ)
    (hlab : ∀ row ∈ rows, ∀ c : Int, encode_chr row.chrS = .ok c → 0 < c)
    (h : read_input_file inFileName phys excl rows = .ok ds) :
    ∀ r ∈ ds, 0 < r.chr := by
  intro r hr
  rw [read_input_file] at h
  rcases hrr : readRows inFileName phys excl rows with e | data
  · rw [hrr] at h
    exact absurd h (by simp)
  · rw [hrr] at h
    dsimp only at h
    by_cases hemp : data.isEmpty
    · rw [if_pos hemp] at h
      exact absurd h (by simp)
    · rw [if_neg hemp] at h
      have hds : ds = sortRecords data := (Except.ok.inj h).symm
      subst hds
      have hmem : r ∈ data :=
        (List.perm_insertionSort recordLE data).mem_iff.mp hr
      obtain ⟨row, hrow, henc⟩ := readRows_chr_encoded hrr r hmem
      exact hlab row hrow r.chr henc

theorem C8_witness :
    (0 : Int) < (⟨1, 10, "rs1", 5 / 2⟩ : RecordQ).chr :=
  C8_chromosome_positive "f" true [] [⟨"1", "10", "rs1", "2.5"⟩]
    [⟨1, 10, "rs1", 5 / 2⟩]
    (by
      intro row hrow c hc
      rw [List.mem_singleton] at hrow
      subst hrow
      rw [show encode_chr ("1") = Except.ok 1 from by decide] at hc
      injection hc with hc2
      omega)
    (by decide) ⟨1, 10, "rs1", 5 / 2⟩ (by decide)

/-- C8 counterexample: the label `"0"` encodes to 0 and the row is
accepted, so a successful read can return a record whose chromosome
code is not positive. -/
theorem C8_counterexample :
    read_input_file "f" true [] [⟨"0", "10", "rs1", "2.5"⟩] =
      .ok [⟨0, 10, "rs1", 5 / 2⟩] ∧
    ¬ (0 : Int) < (⟨0, 10, "rs1", 5 / 2⟩ : RecordQ).chr := by
  refine ⟨by decide, by decide⟩

/-- C9: when every data row is filtered out (here: the only row has
confidence `NA`), the read fails — but with the untyped Python
`ValueError` raised by `max()` over the empty name-length list at
source line 294, not with the program's typed `ProgramError`. -/
theorem C9_empty_dataset_untyped_error :
    read_input_file "input.txt" true [] [⟨"1", "10", "rs1", "NA"⟩] =
      .error (.pythonError "max() arg is an empty sequence") := by
  decide
